import Mathlib

/-!
Shallow embedding of the differentiable linear-algebra routines
(`Dot`, `Eigh`, `Eigvalsh`) of chainerx (chainerx_cc/chainerx/routines/linalg.cc),
together with theorems checking the natural-language specification against it.

Tensors are modelled as a shape (list of dimension sizes), an abstract dtype,
and row-major flat data over ℚ.  External collaborators (elementwise arithmetic,
Zeros/Eye/Where/Diag/ExpandDims, dtype promotion, the 2-D matrix-product kernel
and the symmetric eigensolver kernel) are modelled from the spec where noted.
-/

namespace ChainerxLinalg

/-- Modelled from the spec: dtypes and their promotion rules are external to this
core; a dtype is abstracted to a natural number. -/
abbrev DtypeT := Nat

/-- A tensor: shape (ordered list of dimension sizes), dtype, and row-major
flat data over ℚ. -/
structure Tensor where
  shape : List Nat
  dtype : DtypeT
  data : List ℚ
deriving DecidableEq

/-- Number of dimensions (`Array::ndim`). -/
def Tensor.ndim (t : Tensor) : Nat := t.shape.length

/-- Total number of elements (`Array::GetTotalSize`). -/
def Tensor.total (t : Tensor) : Nat := t.shape.prod

/-- Modelled from the spec: `ResultType` dtype promotion is an external
collaborator; it is abstracted to `max` (any commutative promotion works for the
claims, which only need that the promoted dtype is a fixed function of the two
operand dtypes). -/
def resultTypeT (a b : Tensor) : DtypeT := max a.dtype b.dtype

/-- Modelled from the spec: `Zeros(shape, dtype, device)` returns a zero-filled
tensor of the given shape and dtype. -/
def zerosT (sh : List Nat) (dt : DtypeT) : Tensor :=
  ⟨sh, dt, List.replicate sh.prod 0⟩

/-- Modelled from the spec: elementwise multiply (`operator*`), the external
arithmetic routine the scalar path of `Dot` degenerates to.  A rank-0 operand is
broadcast; otherwise the operands are same-shaped and multiplied entrywise.
Its result dtype is the promoted dtype of the operands. -/
def mulT (a b : Tensor) : Tensor :=
  if a.ndim = 0 then ⟨b.shape, resultTypeT a b, b.data.map (fun x => a.data.getD 0 0 * x)⟩
  else if b.ndim = 0 then ⟨a.shape, resultTypeT a b, a.data.map (fun x => x * b.data.getD 0 0)⟩
  else ⟨a.shape, resultTypeT a b, List.zipWith (· * ·) a.data b.data⟩

/-- Modelled from the spec: elementwise add (`operator+`) of same-shaped
tensors. -/
def addT (a b : Tensor) : Tensor :=
  ⟨a.shape, resultTypeT a b, List.zipWith (· + ·) a.data b.data⟩

/-- Row-major decoding of a flat index into a multi-index for the given shape. -/
def unflatIdx : List Nat → Nat → List Nat
  | [], _ => []
  | _ :: rest, p => p / rest.prod :: unflatIdx rest (p % rest.prod)

/-- Row-major encoding of a multi-index into a flat index for the given shape. -/
def flatIdx : List Nat → List Nat → Nat
  | [], _ => 0
  | _ :: _, [] => 0
  | _ :: rest, i :: is => i * rest.prod + flatIdx rest is

/-- First position of an element in a list, if present. -/
def idxIn : List Nat → Nat → Option Nat
  | [], _ => none
  | a :: rest, d => if a = d then some 0 else (idxIn rest d).map (· + 1)

/-- Modelled from the spec: `Array::Transpose(axes)` — a view whose axis `j` is
the input's axis `axes[j]`; entrywise, `out[idx] = in[idx ∘ axes⁻¹]` in the sense
that the input multi-index at position `axes[j]` equals the output multi-index at
position `j`. -/
def transposeT (t : Tensor) (axes : List Nat) : Tensor :=
  let newShape := axes.map (fun a => t.shape.getD a 0)
  ⟨newShape, t.dtype,
   (List.range newShape.prod).map (fun p =>
     let mi := unflatIdx newShape p
     let orig := (List.range t.shape.length).map (fun d =>
       match idxIn axes d with
       | some j => mi.getD j 0
       | none => 0)
     t.data.getD (flatIdx t.shape orig) 0)⟩

/-- Modelled from the spec: `Array::Reshape` to an explicitly computed shape —
row-major data is unchanged, only the shape is replaced. -/
def reshapeT (t : Tensor) (sh : List Nat) : Tensor := ⟨sh, t.dtype, t.data⟩

/-- Modelled from the spec: the 2-D matrix-product kernel
(`MatrixProduct(A2D, B2D) -> C2D`): `C[i,j] = Σ_t A[i,t] * B[t,j]` for an
`m×k` times `k×n` product, written into a fresh tensor of the requested
output dtype. -/
def matmulData (m k n : Nat) (A B : List ℚ) : List ℚ :=
  (List.range (m * n)).map (fun p =>
    Finset.sum (Finset.range k) (fun t => A.getD (p / n * k + t) 0 * B.getD (t * n + p % n) 0))

/-- The kernel result tensor (`Empty({m, n}, out_dtype)` filled by `DotKernel`). -/
def matmulT (m k n : Nat) (aM bM : Tensor) (dt : DtypeT) : Tensor :=
  ⟨[m, n], dt, matmulData m k n aM.data bM.data⟩

/-! ### The Dot shape algebra, mirroring `Dot` (linalg.cc lines 32-103) -/

/-- The transpose axes built for a right operand of rank > 2
(lines 45-52): `[0, 1, ..., q-3, q-1, q-2]`. -/
def dotBAxes (b : Tensor) : List Nat :=
  (List.range b.ndim).take (b.ndim - 2) ++ ((List.range b.ndim).drop (b.ndim - 2)).reverse

/-- The transformed right operand `modified_b` (lines 39-61): for rank > 2,
transpose by `dotBAxes`, reshape to `{-1, back}`, then 2-D transpose; otherwise
`b` itself. -/
def dotModifiedB (b : Tensor) : Tensor :=
  if 2 < b.ndim then
    let mb1 := transposeT b (dotBAxes b)
    let back := mb1.shape.getD (mb1.shape.length - 1) 0
    transposeT (reshapeT mb1 [mb1.total / back, back]) [1, 0]
  else b

/-- The output shape assembled in lines 41-59: `a.shape` without its last axis,
followed by the transposed `b` shape without its last axis (rank > 2) or
`b.shape` without its first axis (rank ≤ 2). -/
def dotOutShape (a b : Tensor) : List Nat :=
  a.shape.dropLast ++
    (if 2 < b.ndim then (transposeT b (dotBAxes b)).shape.dropLast else b.shape.tail)

/-- The four possible control-flow outcomes of `Dot` before the kernel call. -/
inductive DotStep where
  | scalar
  | mismatch
  | zero (outShape : List Nat)
  | general (outShape : List Nat) (m k n : Nat) (aM bM : Tensor)
deriving DecidableEq

/-- The control flow of `Dot` (lines 35-75): scalar degeneracy, the contracted
dimension check `modified_b.shape()[0] != k`, the zero-contraction early return,
or the reduction of both operands to 2-D matrices. -/
def dotAnalyze (a b : Tensor) : DotStep :=
  if a.ndim = 0 ∨ b.ndim = 0 then .scalar
  else
    let mb := dotModifiedB b
    let k := a.shape.getD (a.ndim - 1) 0
    if mb.shape.getD 0 0 ≠ k then .mismatch
    else if k = 0 then .zero (dotOutShape a b)
    else .general (dotOutShape a b) (a.total / k) k (b.total / k)
      (reshapeT a [a.total / k, k]) (reshapeT mb [k, b.total / k])

/-- The forward value of `Dot(a, b, out_dtype)` (lines 32-103, result only):
`real_out_dtype` defaulting (line 33), the scalar path returning `a * b`, the
`DimensionError` on contracted-dimension mismatch, the zero-fill on a
zero-sized contracted dimension, and otherwise the 2-D kernel product reshaped
to the output shape. -/
def dotForward (a b : Tensor) (od : Option DtypeT) : Except String Tensor :=
  let rdt := od.getD (resultTypeT a b)
  match dotAnalyze a b with
  | .scalar => .ok (mulT a b)
  | .mismatch => .error "Axis dimension mismatch"
  | .zero outShape => .ok (zerosT outShape rdt)
  | .general outShape m k n aM bM => .ok (reshapeT (matmulT m k n aM bM rdt) outShape)

/-! ### Effect model: kernel-call trace and the backprop-mode scope stack -/

/-- An observable effect of an entry point: a numeric kernel invocation (tagged
with the gradient-recording mode in force while it runs), or the registration
of a gradient rule with the graph builder (`BackwardBuilder`). -/
inductive Event where
  | kernelCall (name : String) (recording : Bool)
  | ruleRegistered (name : String)
deriving DecidableEq

/-- The dynamic stack of backprop-mode scopes; the top of the stack is the mode
in force (`true` = recording).  An empty stack means the ambient default,
recording. -/
def curMode (st : List Bool) : Bool := st.headD true

/-- Entering a `NoBackpropModeScope` pushes a non-recording frame. -/
def pushNoBackprop (st : List Bool) : List Bool := false :: st

/-- Leaving a scope (its destructor) pops the frame, restoring the prior mode. -/
def popScope (st : List Bool) : List Bool := st.tail

/-- One gradient target registered by `Dot` with the graph builder: the input
position it differentiates, the index and value of the single retained forward
matrix, the captured operand dtype, and the closure run at backward time. -/
structure DotTarget where
  inputIndex : Nat
  retainedIndex : Nat
  retained : Tensor
  capturedDtype : DtypeT
  closure : Tensor → Except String Tensor

/-- The full observable outcome of a `Dot` call: result (or `DimensionError`),
the event trace, the final backprop-mode stack, and the registered gradient
targets. -/
structure DotEOut where
  res : Except String Tensor
  trace : List Event
  finalStack : List Bool
  targets : List DotTarget

/-- The grad-w.r.t.-`a_matrix` closure (lines 87-91): retain input 1
(`b_matrix`), capture `a`'s dtype, and compute
`Dot(gout, b_matrix.Transpose(), a_dtype)` by the public `Dot` itself. -/
def dotClosure0 (bM : Tensor) (adt : DtypeT) : Tensor → Except String Tensor :=
  fun gout => dotForward gout (transposeT bM [1, 0]) (some adt)

/-- The grad-w.r.t.-`b_matrix` closure (lines 93-98): retain input 0
(`a_matrix`), capture `b`'s dtype, and compute
`Dot(a_matrix.Transpose(), gout, b_dtype)`. -/
def dotClosure1 (aM : Tensor) (bdt : DtypeT) : Tensor → Except String Tensor :=
  fun gout => dotForward (transposeT aM [1, 0]) gout (some bdt)

/-- The full `Dot` entry point (lines 32-104) with its effects: the scalar path
and both early returns produce no events and no targets; the general path runs
the `DotKernel` inside a `NoBackpropModeScope` (lines 79-82) and then registers
the two gradient targets (lines 84-101). -/
def dotE (a b : Tensor) (od : Option DtypeT) (st0 : List Bool) : DotEOut :=
  let rdt := od.getD (resultTypeT a b)
  match dotAnalyze a b with
  | .scalar => ⟨.ok (mulT a b), [], st0, []⟩
  | .mismatch => ⟨.error "Axis dimension mismatch", [], st0, []⟩
  | .zero outShape => ⟨.ok (zerosT outShape rdt), [], st0, []⟩
  | .general outShape m k n aM bM =>
      let st1 := pushNoBackprop st0
      let ev := Event.kernelCall "dot" (curMode st1)
      let st2 := popScope st1
      let outM := matmulT m k n aM bM rdt
      ⟨.ok (reshapeT outM outShape), [ev, .ruleRegistered "dot"], st2,
       [⟨0, 1, bM, a.dtype, dotClosure0 bM a.dtype⟩,
        ⟨1, 0, aM, b.dtype, dotClosure1 aM b.dtype⟩]⟩

/-! ### The Eigh gradient closure (lines 124-148) -/

/-- An IEEE-style numeric value that is either finite or positive infinity;
models the `INFINITY` literal placed on the diagonal of `F`. -/
inductive RVal where
  | fin (q : ℚ)
  | inf
deriving DecidableEq

/-- Modelled from the spec: elementwise `Reciprocal`; the reciprocal of
infinity is exactly zero (`1/∞ = 0`). -/
def recipV : RVal → ℚ
  | .inf => 0
  | .fin q => q⁻¹

/-- Modelled from the spec: the flat boolean data of
`Eye(rows, cols, 0, kBool)` — `true` exactly on the main diagonal. -/
def eyeData (rows cols : Nat) : List Bool :=
  (List.range (rows * cols)).map (fun p => decide (p / cols = p % cols))

/-- Modelled from the spec: `Where(mask, INFINITY, F)` — entrywise, infinity
where the mask holds and the finite `F` entry elsewhere. -/
def whereInfData (mask : List Bool) (f : List ℚ) : List RVal :=
  List.zipWith (fun b x => if b then RVal.inf else RVal.fin x) mask f

/-- Modelled from the spec: `ExpandDims(t, axis)` inserts a size-1 axis at the
given position; data is unchanged. -/
def expandDimsT (t : Tensor) (axis : Nat) : Tensor :=
  ⟨t.shape.take axis ++ 1 :: t.shape.drop axis, t.dtype, t.data⟩

/-- Broadcast combination of two dimension sizes: equal sizes stay, a size-1
dimension stretches to the other. -/
def bcastDim (d1 d2 : Nat) : Nat := if d1 = 1 then d2 else if d2 = 1 then d1 else d1

/-- Index used when reading a possibly-stretched dimension: a size-1 dimension
is always read at 0. -/
def bcastIdx (sz i : Nat) : Nat := if sz = 1 then 0 else i

/-- Modelled from the spec: broadcasting elementwise subtraction (`operator-`)
of two 2-D operands, which is how `F[i,j] = w[j] − w[i]` is built from
`ExpandDims(w, 0) - ExpandDims(w, 1)`. -/
def bsubT (x y : Tensor) : Tensor :=
  let r1 := x.shape.getD 0 0
  let c1 := x.shape.getD 1 0
  let r2 := y.shape.getD 0 0
  let c2 := y.shape.getD 1 0
  let r := bcastDim r1 r2
  let c := bcastDim c1 c2
  ⟨[r, c], resultTypeT x y,
   (List.range (r * c)).map (fun p =>
     x.data.getD (bcastIdx r1 (p / c) * c1 + bcastIdx c1 (p % c)) 0 -
       y.data.getD (bcastIdx r2 (p / c) * c2 + bcastIdx c2 (p % c)) 0)⟩

/-- Modelled from the spec: `Diag(gw)` places the vector `gw` on the diagonal
of a square matrix, zeros elsewhere. -/
def diagT (gw : Tensor) : Tensor :=
  let n := gw.shape.getD 0 0
  ⟨[n, n], gw.dtype,
   (List.range (n * n)).map (fun p => if p / n = p % n then gw.data.getD (p / n) 0 else 0)⟩

/-- The gradient closure registered by `Eigh` (lines 127-148): substitute zeros
for absent output gradients, build `F` from the eigenvalue differences, replace
its diagonal with infinity, invert elementwise, and return
`Dot(Dot(v, F * Dot(vt, gv) + Diag(gw)), vt)`. -/
def eighBackward (a w v : Tensor) (ogw ogv : Option Tensor) : Except String Tensor := do
  let gw := ogw.getD (zerosT w.shape a.dtype)
  let gv := ogv.getD (zerosT v.shape a.dtype)
  let vt := transposeT v [1, 0]
  let F0 := bsubT (expandDimsT w 0) (expandDimsT w 1)
  let mask := eyeData (F0.shape.getD 0 0) (F0.shape.getD 1 0)
  let F : Tensor := ⟨F0.shape, F0.dtype, (whereInfData mask F0.data).map recipV⟩
  let vtgv ← dotForward vt gv none
  let inner := addT (mulT F vtgv) (diagT gw)
  let tmp ← dotForward v inner none
  dotForward tmp vt none

/-! ### The Eigh and Eigvalsh entry points (lines 106-173) -/

/-- The single gradient target registered by `Eigh`: it retains the input `a`
and both outputs `w`, `v`, and its closure receives the two optional output
gradients. -/
structure EighTarget where
  retainedInput : Tensor
  retainedOutputs : Tensor × Tensor
  closure : Option Tensor → Option Tensor → Except String Tensor

/-- The full observable outcome of an `Eigh` call. -/
structure EighEOut where
  res : Except String (Tensor × Tensor)
  trace : List Event
  finalStack : List Bool
  targets : List EighTarget

/-- The full observable outcome of an `Eigvalsh` call (no gradient targets
exist on this path). -/
structure EigvalshEOut where
  res : Except String Tensor
  trace : List Event
  finalStack : List Bool

/-- The `Eigh` entry point (lines 106-154), parameterized by the external
symmetric eigensolver kernel `syevd` (`SyevdKernel`; the spec fixes that the
eigenvalue/eigenvector pair is a function of the input and the triangle
selector, the compute-eigenvectors flag only selecting what is used):
validation, the kernel call inside a `NoBackpropModeScope`, and the
registration of the single gradient target. -/
def eighE (syevd : Tensor → String → Tensor × Tensor) (a : Tensor) (uplo : String)
    (st0 : List Bool) : EighEOut :=
  if a.ndim ≠ 2 then
    ⟨.error "ChainerX Eigh supports only 2-dimensional arrays.", [], st0, []⟩
  else if a.shape.getD 0 0 ≠ a.shape.getD 1 0 then
    ⟨.error "Matrix is not square.", [], st0, []⟩
  else
    let st1 := pushNoBackprop st0
    let wv := syevd a uplo
    let ev := Event.kernelCall "syevd" (curMode st1)
    let st2 := popScope st1
    ⟨.ok wv, [ev, .ruleRegistered "eigh"], st2,
     [⟨a, wv, fun ogw ogv => eighBackward a wv.1 wv.2 ogw ogv⟩]⟩

/-- The `Eigvalsh` entry point (lines 156-173): the same validation, the same
kernel call inside a `NoBackpropModeScope` (with eigenvector computation not
requested), returning only the eigenvalues and registering nothing. -/
def eigvalshE (syevd : Tensor → String → Tensor × Tensor) (a : Tensor) (uplo : String)
    (st0 : List Bool) : EigvalshEOut :=
  if a.ndim ≠ 2 then
    ⟨.error "ChainerX Eigvalsh supports only 2-dimensional arrays.", [], st0⟩
  else if a.shape.getD 0 0 ≠ a.shape.getD 1 0 then
    ⟨.error "Matrix is not square.", [], st0⟩
  else
    let st1 := pushNoBackprop st0
    let wv := syevd a uplo
    let ev := Event.kernelCall "syevd" (curMode st1)
    let st2 := popScope st1
    ⟨.ok wv.1, [ev], st2⟩

/-! ### Matrix view of flat data, and the spec-side Eigh gradient formula -/

/-- View a flat row-major list as an `n × n` rational matrix. -/
def matOfList (n : Nat) (d : List ℚ) : Matrix (Fin n) (Fin n) ℚ :=
  Matrix.of fun i j => d.getD (i.1 * n + j.1) 0

/-- View a flat list as a length-`n` rational vector. -/
def vecOfList (n : Nat) (d : List ℚ) : Fin n → ℚ :=
  fun i => d.getD i.1 0

/-- The gradient formula stated by the spec for `Eigh`:
`grad_a = v · (F ⊙ (vᵗ · grad_v) + diag(grad_w)) · vᵗ` where `F` has exactly
zero on the diagonal and `1/(w[j] − w[i])` off the diagonal. -/
def specEighGrad (n : Nat) (w gw : Fin n → ℚ) (v gv : Matrix (Fin n) (Fin n) ℚ) :
    Matrix (Fin n) (Fin n) ℚ :=
  let F : Matrix (Fin n) (Fin n) ℚ := Matrix.of fun i j => if i = j then 0 else (w j - w i)⁻¹
  v * (Matrix.of (fun i j => F i j * (v.transpose * gv) i j) + Matrix.diagonal gw) * v.transpose

/-! ### Basic bridging lemmas -/

theorem getD_map_range {α : Type} {N p : Nat} (f : Nat → α) (d : α) (h : p < N) :
    ((List.range N).map f).getD p d = f p := by
  rw [List.getD_eq_getElem?_getD, List.getElem?_map, List.getElem?_range h]
  rfl

theorem getD_zipWith {α β γ : Type} (f : α → β → γ) (l1 : List α) (l2 : List β)
    (p : Nat) (d1 : α) (d2 : β) (d : γ) (h1 : p < l1.length) (h2 : p < l2.length) :
    (List.zipWith f l1 l2).getD p d = f (l1.getD p d1) (l2.getD p d2) := by
  have hz : p < (List.zipWith f l1 l2).length := by
    rw [List.length_zipWith]; omega
  rw [List.getD_eq_getElem?_getD, List.getElem?_eq_getElem hz]
  simp only [List.getElem_zipWith, Option.getD_some,
    List.getD_eq_getElem?_getD, List.getElem?_eq_getElem h1, List.getElem?_eq_getElem h2]

theorem idx_div {i j n : Nat} (hj : j < n) : (i * n + j) / n = i := by
  rw [Nat.mul_comm i n, Nat.mul_add_div (by omega)]
  simp [Nat.div_eq_of_lt hj]

theorem idx_mod {i j n : Nat} (hj : j < n) : (i * n + j) % n = j := by
  rw [Nat.mul_comm i n, Nat.mul_add_mod]
  exact Nat.mod_eq_of_lt hj

theorem idx_lt {i j n : Nat} (hi : i < n) (hj : j < n) : i * n + j < n * n :=
  calc i * n + j < i * n + n := by omega
    _ = (i + 1) * n := by ring
    _ ≤ n * n := Nat.mul_le_mul_right n (by omega)

/-- The flat matrix-product kernel data, viewed as a matrix, is the matrix
product of the views. -/
theorem matOfList_matmul (n : Nat) (A B : List ℚ) :
    matOfList n (matmulData n n n A B) = matOfList n A * matOfList n B := by
  ext i j
  have hij : i.1 * n + j.1 < n * n := idx_lt i.isLt j.isLt
  rw [Matrix.mul_apply]
  show (matmulData n n n A B).getD (i.1 * n + j.1) 0 = _
  rw [matmulData, getD_map_range _ _ hij, idx_div j.isLt, idx_mod j.isLt,
    ← Fin.sum_univ_eq_sum_range (fun t => A.getD (i.1 * n + t) 0 * B.getD (t * n + j.1) 0) n]
  rfl

theorem matmulData_length (m k n : Nat) (A B : List ℚ) :
    (matmulData m k n A B).length = m * n := by
  simp [matmulData]

/-- The 2-D transpose of a square tensor, characterized entrywise. -/
theorem transposeT_square {t : Tensor} {n : Nat} (h : t.shape = [n, n]) :
    transposeT t [1, 0] =
      ⟨[n, n], t.dtype, (List.range (n * n)).map (fun p => t.data.getD (p % n * n + p / n) 0)⟩ := by
  simp only [transposeT, h]
  congr 1
  simp [mul_one]
  intro p hp
  simp [unflatIdx, flatIdx, idxIn, List.range_succ]

/-- Control-flow analysis of `Dot` on two square `n × n` operands. -/
theorem dotAnalyze_square {a b : Tensor} {n : Nat} (ha : a.shape = [n, n]) (hb : b.shape = [n, n]) :
    dotAnalyze a b =
      if n = 0 then .zero [n, n]
      else .general [n, n] n n n (reshapeT a [n, n]) (reshapeT b [n, n]) := by
  have hna : a.ndim = 2 := by simp [Tensor.ndim, ha]
  have hnb : b.ndim = 2 := by simp [Tensor.ndim, hb]
  have hta : a.total = n * n := by simp [Tensor.total, ha]
  have htb : b.total = n * n := by simp [Tensor.total, hb]
  have hmb : dotModifiedB b = b := by simp [dotModifiedB, hnb]
  have hout : dotOutShape a b = [n, n] := by simp [dotOutShape, hnb, ha, hb]
  by_cases hn : n = 0
  · subst hn
    simp [dotAnalyze, hna, hnb, hmb, ha, hb, hout]
  · have hdiv : n * n / n = n := Nat.mul_div_cancel_left n (Nat.pos_of_ne_zero hn)
    simp [dotAnalyze, hna, hnb, hmb, ha, hb, hout, hta, htb, hdiv, hn]

/-- The forward value of `Dot` on two square `n × n` operands is the kernel
matrix product (the zero-contraction fill for `n = 0` coincides with it). -/
theorem dotForward_square {a b : Tensor} {n : Nat} (ha : a.shape = [n, n]) (hb : b.shape = [n, n])
    (od : Option DtypeT) :
    dotForward a b od =
      .ok ⟨[n, n], od.getD (resultTypeT a b), matmulData n n n a.data b.data⟩ := by
  rw [dotForward, dotAnalyze_square ha hb]
  by_cases hn : n = 0
  · subst hn
    simp [zerosT, matmulData]
  · simp [hn, reshapeT, matmulT]

theorem getD_map {α β : Type} (f : α → β) (l : List α) (p : Nat) (d : β) (d' : α)
    (h : p < l.length) : (l.map f).getD p d = f (l.getD p d') := by
  rw [List.getD_eq_getElem?_getD, List.getElem?_map, List.getElem?_eq_getElem h,
    List.getD_eq_getElem?_getD, List.getElem?_eq_getElem h]
  rfl

theorem bcastDim_one_right (n : Nat) : bcastDim n 1 = n := by
  unfold bcastDim
  by_cases h : n = 1 <;> simp [h]

theorem bcastIdx_lt {n i : Nat} (h : i < n) : bcastIdx n i = i := by
  unfold bcastIdx
  by_cases h1 : n = 1
  · simp [h1]
    omega
  · simp [h1]

/-- The broadcast difference of the two expanded eigenvalue vectors:
`F[i,j] = w[j] − w[i]` flattened over an `n × n` shape. -/
theorem bsub_expand {w : Tensor} {n : Nat} (hw : w.shape = [n]) :
    bsubT (expandDimsT w 0) (expandDimsT w 1) =
      ⟨[n, n], w.dtype,
       (List.range (n * n)).map (fun p => w.data.getD (p % n) 0 - w.data.getD (p / n) 0)⟩ := by
  have h0 : expandDimsT w 0 = ⟨[1, n], w.dtype, w.data⟩ := by simp [expandDimsT, hw]
  have h1 : expandDimsT w 1 = ⟨[n, 1], w.dtype, w.data⟩ := by simp [expandDimsT, hw]
  rw [h0, h1]
  unfold bsubT
  simp only [List.getD_cons_zero, List.getD_cons_succ, bcastDim_one_right]
  have hb : bcastDim 1 n = n := rfl
  rw [hb]
  congr 1
  · simp [resultTypeT]
  simp only [List.map_inj_left, List.mem_range]
  intro p hp
  have hn : 0 < n := by
    rcases Nat.eq_zero_or_pos n with h | h
    · subst h; simp at hp
    · exact h
  have hmod : p % n < n := Nat.mod_lt p hn
  have hdiv : p / n < n := Nat.div_lt_of_lt_mul hp
  have e1 : bcastIdx 1 (p / n) = 0 := rfl
  have e2 : bcastIdx 1 (p % n) = 0 := rfl
  rw [e1, e2, bcastIdx_lt hmod, bcastIdx_lt hdiv]
  simp

theorem zipWith_map_range {α β γ : Type} (f : α → β → γ) (g1 : Nat → α) (g2 : Nat → β)
    (N : Nat) :
    List.zipWith f ((List.range N).map g1) ((List.range N).map g2) =
      (List.range N).map (fun p => f (g1 p) (g2 p)) := by
  rw [List.zipWith_map, List.zipWith_same]

/-- The `Where`/`Reciprocal` pipeline on the eye mask: exactly zero on the
diagonal (the reciprocal of infinity), elementwise inverse off it. -/
theorem whereInf_recip_eq (n : Nat) (g : Nat → ℚ) :
    (whereInfData (eyeData n n) ((List.range (n * n)).map g)).map recipV =
      (List.range (n * n)).map (fun p => if p / n = p % n then 0 else (g p)⁻¹) := by
  unfold whereInfData eyeData
  rw [zipWith_map_range, List.map_map]
  congr 1
  funext p
  by_cases h : p / n = p % n <;> simp [recipV, h]

/-- View of a map-over-range list as a matrix: entry `(i,j)` is `f (i*n+j)`. -/
theorem matOfList_map_range (n : Nat) (f : Nat → ℚ) :
    matOfList n ((List.range (n * n)).map f) =
      Matrix.of fun i j : Fin n => f (i.1 * n + j.1) := by
  ext i j
  show ((List.range (n * n)).map f).getD (i.1 * n + j.1) 0 = f (i.1 * n + j.1)
  exact getD_map_range f 0 (idx_lt i.isLt j.isLt)

/-- `Diag(gw)` on a length-`n` vector, flattened. -/
theorem diagT_eq {gw : Tensor} {n : Nat} (hgw : gw.shape = [n]) :
    diagT gw =
      ⟨[n, n], gw.dtype,
       (List.range (n * n)).map (fun p => if p / n = p % n then gw.data.getD (p / n) 0 else 0)⟩ := by
  simp [diagT, hgw]

/-- Flattened transpose data, as a matrix, is the matrix transpose. -/
theorem matOfList_transpose_data (n : Nat) (d : List ℚ) :
    matOfList n ((List.range (n * n)).map (fun p => d.getD (p % n * n + p / n) 0)) =
      (matOfList n d).transpose := by
  rw [matOfList_map_range]
  ext i j
  simp [Matrix.transpose_apply, matOfList, idx_div j.isLt, idx_mod j.isLt]

/-- The inverted eigenvalue-difference data, as a matrix: exactly zero on the
diagonal, `1/(w[j] − w[i])` off it. -/
theorem matOfList_F (n : Nat) (wd : List ℚ) :
    matOfList n ((List.range (n * n)).map
        (fun p => if p / n = p % n then 0 else (wd.getD (p % n) 0 - wd.getD (p / n) 0)⁻¹)) =
      Matrix.of (fun i j : Fin n =>
        if i = j then 0 else (vecOfList n wd j - vecOfList n wd i)⁻¹) := by
  rw [matOfList_map_range]
  ext i j
  simp only [Matrix.of_apply, idx_div j.isLt, idx_mod j.isLt]
  by_cases h : i = j
  · simp [h]
  · have h1 : i.1 ≠ j.1 := fun hc => h (Fin.ext hc)
    simp [h, h1, vecOfList]

/-- The flattened `Diag` data, as a matrix, is the diagonal matrix. -/
theorem matOfList_diagData (n : Nat) (d : List ℚ) :
    matOfList n ((List.range (n * n)).map
        (fun p => if p / n = p % n then d.getD (p / n) 0 else 0)) =
      Matrix.diagonal (vecOfList n d) := by
  rw [matOfList_map_range]
  ext i j
  simp only [Matrix.of_apply, idx_div j.isLt, idx_mod j.isLt, Matrix.diagonal_apply]
  by_cases h : i = j
  · simp [h, vecOfList]
  · have h1 : i.1 ≠ j.1 := fun hc => h (Fin.ext hc)
    simp [h, h1]

/-- The elementwise combination `F * M + D` of flat data, as a matrix. -/
theorem matOfList_inner (n : Nat) (Fd Md Dd : List ℚ)
    (hF : Fd.length = n * n) (hM : Md.length = n * n) (hD : Dd.length = n * n) :
    matOfList n (List.zipWith (· + ·) (List.zipWith (· * ·) Fd Md) Dd) =
      Matrix.of (fun i j => matOfList n Fd i j * matOfList n Md i j) + matOfList n Dd := by
  ext i j
  have hp := idx_lt i.isLt j.isLt
  have hFM : (List.zipWith (· * ·) Fd Md).length = n * n := by
    rw [List.length_zipWith]; omega
  show (List.zipWith _ _ _).getD (i.1 * n + j.1) 0 = _
  rw [getD_zipWith _ _ _ _ 0 0 _ (by omega) (by omega),
    getD_zipWith _ _ _ _ 0 0 _ (by omega) (by omega)]
  simp [Matrix.add_apply, matOfList]

theorem mulT_square {n : Nat} (dx dy : DtypeT) (x y : List ℚ) :
    mulT ⟨[n, n], dx, x⟩ ⟨[n, n], dy, y⟩ =
      ⟨[n, n], max dx dy, List.zipWith (· * ·) x y⟩ := by
  simp [mulT, Tensor.ndim, resultTypeT]

theorem addT_square {n : Nat} (dx dy : DtypeT) (x y : List ℚ) :
    addT ⟨[n, n], dx, x⟩ ⟨[n, n], dy, y⟩ =
      ⟨[n, n], max dx dy, List.zipWith (· + ·) x y⟩ := by
  simp [addT, resultTypeT]

/-! ### The claims -/

/-- C1: for every n-by-n input to Eigh with retained eigenvalues `w` (length n)
and eigenvectors `v` (n-by-n), the registered gradient closure returns
`grad_a = v · (F ⊙ (vᵗ · grad_v) + diag(grad_w)) · vᵗ`, where `F` is built as
`F[i,j] = w[j] − w[i]`, its diagonal is replaced with positive infinity before
elementwise inversion, and after inversion `F` has exactly zero on the diagonal
and `1/(w[j] − w[i])` off the diagonal. -/
theorem C1_eigh_gradient_formula {n : Nat} (a w v gw gv : Tensor)
    (hw : w.shape = [n]) (hv : v.shape = [n, n])
    (hgw : gw.shape = [n]) (hgv : gv.shape = [n, n]) :
    (eighBackward a w v (some gw) (some gv)).map (fun t => (t.shape, matOfList n t.data)) =
      .ok ([n, n],
        specEighGrad n (vecOfList n w.data) (vecOfList n gw.data)
          (matOfList n v.data) (matOfList n gv.data)) := by
  have hvt := transposeT_square hv
  have hF0 := bsub_expand hw
  simp only [eighBackward, Option.getD_some, hvt, hF0, List.getD_cons_zero, List.getD_cons_succ]
  rw [dotForward_square rfl hgv none]
  simp only [Bind.bind, Except.bind]
  rw [whereInf_recip_eq n (fun p => w.data.getD (p % n) 0 - w.data.getD (p / n) 0), diagT_eq hgw]
  rw [mulT_square, addT_square]
  rw [dotForward_square hv rfl none]
  simp only [Bind.bind, Except.bind]
  rw [dotForward_square rfl rfl none]
  simp only [Except.map, Except.ok.injEq, Prod.mk.injEq]
  refine ⟨trivial, ?_⟩
  rw [matOfList_matmul, matOfList_matmul,
    matOfList_inner n _ _ _ (by simp) (by rw [matmulData_length]) (by simp),
    matOfList_matmul, matOfList_F, matOfList_transpose_data, matOfList_diagData]
  simp only [specEighGrad]

/-- Witness for C1 at a concrete 2×2 input. -/
theorem C1_witness :
    (eighBackward ⟨[2, 2], 0, [9, 9, 9, 9]⟩ ⟨[2], 0, [1, 2]⟩ ⟨[2, 2], 0, [1, 0, 0, 1]⟩
        (some ⟨[2], 0, [3, 4]⟩) (some ⟨[2, 2], 0, [5, 6, 7, 8]⟩)).map
        (fun t => (t.shape, matOfList 2 t.data)) =
      .ok ([2, 2],
        specEighGrad 2 (vecOfList 2 [1, 2]) (vecOfList 2 [3, 4])
          (matOfList 2 [1, 0, 0, 1]) (matOfList 2 [5, 6, 7, 8])) :=
  C1_eigh_gradient_formula ⟨[2, 2], 0, [9, 9, 9, 9]⟩ ⟨[2], 0, [1, 2]⟩ ⟨[2, 2], 0, [1, 0, 0, 1]⟩
    ⟨[2], 0, [3, 4]⟩ ⟨[2, 2], 0, [5, 6, 7, 8]⟩ rfl rfl rfl rfl

/-! ### Shape algebra of the generalized Dot -/

/-- The dimension of `b` that `Dot` contracts: its first axis when rank ≤ 2,
its second-to-last axis when rank > 2. -/
def bContractDim (b : Tensor) : Nat :=
  if b.ndim ≤ 2 then b.shape.getD 0 0 else b.shape.getD (b.ndim - 2) 0

theorem mapGetDRange_take (l : List Nat) : ∀ r, r ≤ l.length →
    (List.range r).map (fun i => l.getD i 0) = l.take r := by
  intro r
  induction r with
  | zero => intro _; simp
  | succ r ih =>
    intro h
    rw [List.range_succ, List.map_append, ih (by omega), List.take_succ]
    simp [List.getElem?_eq_getElem (show r < l.length by omega), List.getD_eq_getElem?_getD]

theorem range_add_two (r : Nat) : List.range (r + 2) = List.range r ++ [r, r + 1] := by
  rw [List.range_succ, List.range_succ]
  simp

theorem dropLast_append_two {α : Type} (l : List α) (u v : α) :
    (l ++ [u, v]).dropLast = l ++ [u] := by
  have h : l ++ [u, v] = (l ++ [u]) ++ [v] := by simp
  rw [h, List.dropLast_concat]

theorem dropLast_dropLast (l : List Nat) : l.dropLast.dropLast = l.take (l.length - 2) := by
  rw [List.dropLast_eq_take, List.dropLast_eq_take, List.take_take, List.length_take]
  congr 1
  omega

theorem take_length_of_le {l : List Nat} {r : Nat} (h : r ≤ l.length) :
    (l.take r).length = r := by
  simp [List.length_take]; omega

/-- The transpose-axes list of `Dot` for a rank-`r+2` right operand. -/
theorem dotBAxes_eq {b : Tensor} {r : Nat} (h : b.ndim = r + 2) :
    dotBAxes b = List.range r ++ [r + 1, r] := by
  unfold dotBAxes
  rw [h, range_add_two]
  have h1 : r + 2 - 2 = r := by omega
  rw [h1, List.take_left' (List.length_range r), List.drop_left' (List.length_range r)]
  rfl

/-- The shape of `b.Transpose(dotBAxes b)` for a rank-`r+2` right operand:
the leading `r` axes followed by the last axis and then the second-to-last. -/
theorem transposeT_bAxes_shape {b : Tensor} {r : Nat} (h : b.ndim = r + 2) :
    (transposeT b (dotBAxes b)).shape =
      b.shape.take r ++ [b.shape.getD (r + 1) 0, b.shape.getD r 0] := by
  show (dotBAxes b).map (fun a => b.shape.getD a 0) = _
  rw [dotBAxes_eq h, List.map_append,
    mapGetDRange_take b.shape r (by unfold Tensor.ndim at h; omega)]
  rfl

theorem getD_append_two_right {l : List Nat} {r : Nat} (hl : l.length = r) (x y d : Nat) :
    (l ++ [x, y]).getD (r + 1) d = y := by
  rw [List.getD_eq_getElem?_getD, List.getElem?_append_right (by omega)]
  simp [hl]

theorem transposeT_shape_two {t : Tensor} {x y : Nat} (h : t.shape = [x, y]) :
    (transposeT t [1, 0]).shape = [y, x] := by
  show ([1, 0].map (fun a => t.shape.getD a 0)) = [y, x]
  rw [h]
  rfl

/-- The first dimension of `modified_b` is always the dimension of `b` that
`Dot` contracts. -/
theorem dotModifiedB_head {b : Tensor} (hq : 1 ≤ b.ndim) :
    (dotModifiedB b).shape.getD 0 0 = bContractDim b := by
  unfold dotModifiedB bContractDim
  by_cases h2 : 2 < b.ndim
  · obtain ⟨r, hr⟩ : ∃ r, b.ndim = r + 2 := ⟨b.ndim - 2, by omega⟩
    have hlen : b.shape.length = r + 2 := hr
    have hs := transposeT_bAxes_shape hr
    have hslen : (transposeT b (dotBAxes b)).shape.length = r + 2 := by
      rw [hs]
      simp [take_length_of_le (show r ≤ b.shape.length by omega)]
    have hback : (transposeT b (dotBAxes b)).shape.getD
        ((transposeT b (dotBAxes b)).shape.length - 1) 0 = b.shape.getD r 0 := by
      rw [hslen, hs]
      have h3 : r + 2 - 1 = (b.shape.take r).length + 1 := by
        rw [take_length_of_le (show r ≤ b.shape.length by omega)]
        omega
      rw [h3, getD_append_two_right rfl]
    rw [if_pos h2, if_neg (by omega)]
    rw [transposeT_shape_two (x := (transposeT b (dotBAxes b)).total /
        (transposeT b (dotBAxes b)).shape.getD ((transposeT b (dotBAxes b)).shape.length - 1) 0)
      (y := (transposeT b (dotBAxes b)).shape.getD
        ((transposeT b (dotBAxes b)).shape.length - 1) 0) rfl]
    rw [hback, hr]
    simp
  · rw [if_neg h2, if_pos (by omega)]

/-- The output shape assembled by `Dot` equals the spec formula: `a.shape`
without its last axis, then `b.shape` without its first axis (rank ≤ 2) or
`b.shape` with its second-to-last axis removed and true last axis kept
(rank > 2). -/
theorem dotOutShape_eq (a b : Tensor) (hq : 1 ≤ b.ndim) :
    dotOutShape a b =
      a.shape.dropLast ++
        (if b.ndim ≤ 2 then b.shape.tail
         else b.shape.dropLast.dropLast ++ [b.shape.getD (b.ndim - 1) 0]) := by
  unfold dotOutShape
  by_cases h2 : 2 < b.ndim
  · obtain ⟨r, hr⟩ : ∃ r, b.ndim = r + 2 := ⟨b.ndim - 2, by omega⟩
    have hlen : b.shape.length = r + 2 := hr
    rw [if_pos h2, if_neg (by omega)]
    rw [transposeT_bAxes_shape hr, dropLast_append_two, dropLast_dropLast]
    congr 3
    · omega
    · congr 1
      omega
  · rw [if_neg h2, if_pos (by omega)]

/-- Control flow of `Dot` when ranks are ≥ 1 and the contracted sizes agree. -/
theorem dotAnalyze_agree (a b : Tensor) (hp : 1 ≤ a.ndim) (hq : 1 ≤ b.ndim)
    (hk : a.shape.getD (a.ndim - 1) 0 = bContractDim b) :
    dotAnalyze a b =
      if a.shape.getD (a.ndim - 1) 0 = 0 then .zero (dotOutShape a b)
      else .general (dotOutShape a b) (a.total / a.shape.getD (a.ndim - 1) 0)
        (a.shape.getD (a.ndim - 1) 0) (b.total / a.shape.getD (a.ndim - 1) 0)
        (reshapeT a [a.total / a.shape.getD (a.ndim - 1) 0, a.shape.getD (a.ndim - 1) 0])
        (reshapeT (dotModifiedB b)
          [a.shape.getD (a.ndim - 1) 0, b.total / a.shape.getD (a.ndim - 1) 0]) := by
  have ha0 : ¬a.ndim = 0 := by omega
  have hb0 : ¬b.ndim = 0 := by omega
  simp only [dotAnalyze, dotModifiedB_head hq, ← hk, ha0, hb0, or_self, ite_false,
    ne_eq, not_true_eq_false, or_false, false_or, if_false]

/-- C2: for operands of rank ≥ 1 with agreeing contracted dimension sizes
(A's last axis against B's first axis for rank ≤ 2, B's second-to-last axis for
rank > 2), `Dot(A,B)` has shape `A.shape` without its last axis followed by
`B.shape` without its first axis (rank ≤ 2), or followed by `B.shape` with its
second-to-last axis removed and its true last axis kept in place (rank > 2). -/
theorem C2_dot_shape_contract (a b : Tensor) (od : Option DtypeT)
    (hp : 1 ≤ a.ndim) (hq : 1 ≤ b.ndim)
    (hk : a.shape.getD (a.ndim - 1) 0 = bContractDim b) :
    (dotForward a b od).map Tensor.shape =
      .ok (a.shape.dropLast ++
        (if b.ndim ≤ 2 then b.shape.tail
         else b.shape.dropLast.dropLast ++ [b.shape.getD (b.ndim - 1) 0])) := by
  rw [← dotOutShape_eq a b hq]
  unfold dotForward
  rw [dotAnalyze_agree a b hp hq hk]
  by_cases hz : a.shape.getD (a.ndim - 1) 0 = 0
  · rw [if_pos hz]
    simp [Except.map, zerosT]
  · rw [if_neg hz]
    simp [Except.map, reshapeT]

/-- Witness for C2 at concrete rank-2 × rank-3 operands. -/
theorem C2_witness :
    (dotForward ⟨[2, 3], 0, []⟩ ⟨[4, 3, 5], 0, []⟩ none).map Tensor.shape = .ok [2, 4, 5] :=
  C2_dot_shape_contract ⟨[2, 3], 0, []⟩ ⟨[4, 3, 5], 0, []⟩ none
    (by decide) (by decide) (by decide)

/-- The forward result of the effectful `Dot` is `dotForward`. -/
theorem dotE_res (a b : Tensor) (od : Option DtypeT) (st0 : List Bool) :
    (dotE a b od st0).res = dotForward a b od := by
  unfold dotE dotForward
  cases dotAnalyze a b <;> rfl

/-- C4: when the ranks are ≥ 1, the contracted sizes agree and are zero, `Dot`
returns a zero-filled tensor of the computed output shape and result dtype,
dispatches no kernel and registers no gradient rule. -/
theorem C4_zero_contraction (a b : Tensor) (od : Option DtypeT) (st0 : List Bool)
    (hp : 1 ≤ a.ndim) (hq : 1 ≤ b.ndim)
    (hk : a.shape.getD (a.ndim - 1) 0 = bContractDim b)
    (h0 : a.shape.getD (a.ndim - 1) 0 = 0) :
    dotE a b od st0 =
      ⟨.ok (zerosT (dotOutShape a b) (od.getD (resultTypeT a b))), [], st0, []⟩ := by
  unfold dotE
  rw [dotAnalyze_agree a b hp hq hk, if_pos h0]

/-- Witness for C4 at a concrete zero-contraction input. -/
theorem C4_witness :
    dotE ⟨[2, 0], 0, []⟩ ⟨[0, 5], 1, []⟩ none [true] =
      ⟨.ok (zerosT (dotOutShape ⟨[2, 0], 0, []⟩ ⟨[0, 5], 1, []⟩)
        ((none : Option DtypeT).getD (resultTypeT ⟨[2, 0], 0, []⟩ ⟨[0, 5], 1, []⟩))),
       [], [true], []⟩ :=
  C4_zero_contraction ⟨[2, 0], 0, []⟩ ⟨[0, 5], 1, []⟩ none [true]
    (by decide) (by decide) (by decide) (by decide)

/-- C6: if either operand has rank 0, `Dot` returns the elementwise product of
the operands immediately, with no kernel dispatch and no gradient-rule
registration. -/
theorem C6_scalar_degeneracy (a b : Tensor) (od : Option DtypeT) (st0 : List Bool)
    (h : a.ndim = 0 ∨ b.ndim = 0) :
    dotE a b od st0 = ⟨.ok (mulT a b), [], st0, []⟩ := by
  have hs : dotAnalyze a b = .scalar := by
    unfold dotAnalyze
    rw [if_pos h]
  unfold dotE
  rw [hs]

/-- Witness for C6 at a concrete scalar × matrix input. -/
theorem C6_witness :
    dotE ⟨[], 0, [3]⟩ ⟨[2, 2], 0, [1, 2, 3, 4]⟩ none [] =
      ⟨.ok (mulT ⟨[], 0, [3]⟩ ⟨[2, 2], 0, [1, 2, 3, 4]⟩), [], [], []⟩ :=
  C6_scalar_degeneracy ⟨[], 0, [3]⟩ ⟨[2, 2], 0, [1, 2, 3, 4]⟩ none [] (by decide)

/-- C10: on the scalar path the explicitly supplied `out_dtype` is ignored: the
result is `a * b` whose dtype is the promoted result type of `a` and `b`,
whatever `out_dtype` was. -/
theorem C10_scalar_ignores_out_dtype (a b : Tensor) (dt : DtypeT) (st0 : List Bool)
    (h : a.ndim = 0 ∨ b.ndim = 0) :
    (dotE a b (some dt) st0).res = .ok (mulT a b) ∧ (mulT a b).dtype = resultTypeT a b := by
  have hs : dotAnalyze a b = .scalar := by
    unfold dotAnalyze
    rw [if_pos h]
  constructor
  · unfold dotE
    rw [hs]
  · unfold mulT
    by_cases h1 : a.ndim = 0
    · simp [h1]
    · by_cases h2 : b.ndim = 0 <;> simp [h1, h2]

/-- Witness for C10: scalar path with an out_dtype (5) different from the
promoted dtype (max 0 1 = 1). -/
theorem C10_witness :
    (dotE ⟨[], 0, [3]⟩ ⟨[2], 1, [1, 2]⟩ (some 5) []).res =
        .ok (mulT ⟨[], 0, [3]⟩ ⟨[2], 1, [1, 2]⟩) ∧
      (mulT ⟨[], 0, [3]⟩ ⟨[2], 1, [1, 2]⟩).dtype = resultTypeT ⟨[], 0, [3]⟩ ⟨[2], 1, [1, 2]⟩ :=
  C10_scalar_ignores_out_dtype ⟨[], 0, [3]⟩ ⟨[2], 1, [1, 2]⟩ 5 [] (by decide)

/-- C7: in the Eigh gradient closure, each absent output gradient is
substituted, before any arithmetic, with a zero tensor of the expected shape
and dtype: shape `n` (and the input's dtype) for a missing `grad_w`, shape
`n × n` for a missing `grad_v`. -/
theorem C7_missing_output_gradients {n : Nat} (a w v : Tensor) (ogw ogv : Option Tensor)
    (hw : w.shape = [n]) (hv : v.shape = [n, n]) :
    eighBackward a w v ogw ogv =
      eighBackward a w v (some (ogw.getD (zerosT [n] a.dtype)))
        (some (ogv.getD (zerosT [n, n] a.dtype))) := by
  simp only [eighBackward, Option.getD_some, hw, hv]

/-- Witness for C7 at a concrete 1×1 input with both gradients missing. -/
theorem C7_witness :
    eighBackward ⟨[1, 1], 0, [2]⟩ ⟨[1], 0, [3]⟩ ⟨[1, 1], 0, [1]⟩ none none =
      eighBackward ⟨[1, 1], 0, [2]⟩ ⟨[1], 0, [3]⟩ ⟨[1, 1], 0, [1]⟩
        (some ((none : Option Tensor).getD (zerosT [1] 0)))
        (some ((none : Option Tensor).getD (zerosT [1, 1] 0))) :=
  C7_missing_output_gradients ⟨[1, 1], 0, [2]⟩ ⟨[1], 0, [3]⟩ ⟨[1, 1], 0, [1]⟩ none none rfl rfl

/-- C3: on the general path, `Dot` registers exactly two independent targets
over the reduced 2-D matrices: target 0 retains only `b_matrix` (input index 1)
with `a`'s dtype and computes `Dot(g_out, transpose(b_matrix), a_dtype)`;
target 1 retains only `a_matrix` (input index 0) with `b`'s dtype and computes
`Dot(transpose(a_matrix), g_out, b_dtype)`; both recursively invoke the same
forward `Dot` semantics that the public entry point returns. -/
theorem C3_dot_gradient_targets (a b : Tensor) (od : Option DtypeT) (st0 : List Bool)
    (os : List Nat) (m k nn : Nat) (aM bM : Tensor)
    (h : dotAnalyze a b = .general os m k nn aM bM) :
    (dotE a b od st0).res = dotForward a b od ∧
      (dotE a b od st0).targets =
        [⟨0, 1, bM, a.dtype, dotClosure0 bM a.dtype⟩,
         ⟨1, 0, aM, b.dtype, dotClosure1 aM b.dtype⟩] ∧
      dotClosure0 bM a.dtype =
        (fun gout => dotForward gout (transposeT bM [1, 0]) (some a.dtype)) ∧
      dotClosure1 aM b.dtype =
        (fun gout => dotForward (transposeT aM [1, 0]) gout (some b.dtype)) := by
  refine ⟨dotE_res a b od st0, ?_, rfl, rfl⟩
  unfold dotE
  rw [h]

/-- Witness for C3 at a concrete 2×2 × 2×2 input. -/
theorem C3_witness :
    (dotE ⟨[2, 2], 0, [1, 2, 3, 4]⟩ ⟨[2, 2], 1, [5, 6, 7, 8]⟩ none []).res =
        dotForward ⟨[2, 2], 0, [1, 2, 3, 4]⟩ ⟨[2, 2], 1, [5, 6, 7, 8]⟩ none ∧
      (dotE ⟨[2, 2], 0, [1, 2, 3, 4]⟩ ⟨[2, 2], 1, [5, 6, 7, 8]⟩ none []).targets =
        [⟨0, 1, reshapeT ⟨[2, 2], 1, [5, 6, 7, 8]⟩ [2, 2], 0,
          dotClosure0 (reshapeT ⟨[2, 2], 1, [5, 6, 7, 8]⟩ [2, 2]) 0⟩,
         ⟨1, 0, reshapeT ⟨[2, 2], 0, [1, 2, 3, 4]⟩ [2, 2], 1,
          dotClosure1 (reshapeT ⟨[2, 2], 0, [1, 2, 3, 4]⟩ [2, 2]) 1⟩] ∧
      dotClosure0 (reshapeT ⟨[2, 2], 1, [5, 6, 7, 8]⟩ [2, 2]) 0 =
        (fun gout => dotForward gout
          (transposeT (reshapeT ⟨[2, 2], 1, [5, 6, 7, 8]⟩ [2, 2]) [1, 0]) (some 0)) ∧
      dotClosure1 (reshapeT ⟨[2, 2], 0, [1, 2, 3, 4]⟩ [2, 2]) 1 =
        (fun gout => dotForward
          (transposeT (reshapeT ⟨[2, 2], 0, [1, 2, 3, 4]⟩ [2, 2]) [1, 0]) gout (some 1)) :=
  C3_dot_gradient_targets ⟨[2, 2], 0, [1, 2, 3, 4]⟩ ⟨[2, 2], 1, [5, 6, 7, 8]⟩ none []
    [2, 2] 2 2 2 (reshapeT ⟨[2, 2], 0, [1, 2, 3, 4]⟩ [2, 2])
    (reshapeT ⟨[2, 2], 1, [5, 6, 7, 8]⟩ [2, 2]) (by decide)

/-- Whether an event is a gradient-rule registration. -/
def isRuleEvent : Event → Bool
  | .ruleRegistered _ => true
  | _ => false

/-- C8: for a rank-2 square input and any triangle selector, `Eigvalsh` returns
the first component (the eigenvalue vector) of `Eigh`, and registers no
gradient rule. -/
theorem C8_eigvalsh_equals_eigh_w (f : Tensor → String → Tensor × Tensor) (a : Tensor)
    (uplo : String) (st0 : List Bool)
    (h2 : a.ndim = 2) (hsq : a.shape.getD 0 0 = a.shape.getD 1 0) :
    (eigvalshE f a uplo st0).res = (eighE f a uplo st0).res.map Prod.fst ∧
      (eigvalshE f a uplo st0).trace.all (fun e => !(isRuleEvent e)) = true := by
  have hsq' : a.shape[0]?.getD 0 = a.shape[1]?.getD 0 := by
    simpa [List.getD_eq_getElem?_getD] using hsq
  simp [eigvalshE, eighE, h2, hsq, hsq', Except.map, isRuleEvent]

/-- Witness for C8 at a concrete 2×2 input and a concrete eigensolver model. -/
theorem C8_witness :
    (eigvalshE (fun _ _ => (⟨[2], 0, [1, 2]⟩, ⟨[2, 2], 0, [1, 0, 0, 1]⟩))
        ⟨[2, 2], 0, [1, 0, 0, 2]⟩ "L" []).res =
      (eighE (fun _ _ => (⟨[2], 0, [1, 2]⟩, ⟨[2, 2], 0, [1, 0, 0, 1]⟩))
        ⟨[2, 2], 0, [1, 0, 0, 2]⟩ "L" []).res.map Prod.fst ∧
      (eigvalshE (fun _ _ => (⟨[2], 0, [1, 2]⟩, ⟨[2, 2], 0, [1, 0, 0, 1]⟩))
        ⟨[2, 2], 0, [1, 0, 0, 2]⟩ "L" []).trace.all (fun e => !(isRuleEvent e)) = true :=
  C8_eigvalsh_equals_eigh_w (fun _ _ => (⟨[2], 0, [1, 2]⟩, ⟨[2, 2], 0, [1, 0, 0, 1]⟩))
    ⟨[2, 2], 0, [1, 0, 0, 2]⟩ "L" [] (by decide) (by decide)

/-- Whether every kernel-call event in a trace ran with recording suspended. -/
def kernelModesOk (tr : List Event) : Bool :=
  tr.all (fun e => match e with
    | Event.kernelCall _ m => !m
    | _ => true)

/-- C9: every numeric kernel invocation of `Dot`, `Eigh` and `Eigvalsh`
executes while gradient recording is suspended, and the prior mode stack is
restored after the scoped kernel call, whatever the ambient mode was. -/
theorem C9_kernels_no_recording (a b c d : Tensor) (od : Option DtypeT)
    (u1 u2 : String) (st0 : List Bool) (f g : Tensor → String → Tensor × Tensor) :
    (kernelModesOk (dotE a b od st0).trace = true ∧ (dotE a b od st0).finalStack = st0) ∧
      (kernelModesOk (eighE f c u1 st0).trace = true ∧ (eighE f c u1 st0).finalStack = st0) ∧
      (kernelModesOk (eigvalshE g d u2 st0).trace = true ∧
        (eigvalshE g d u2 st0).finalStack = st0) := by
  refine ⟨⟨?_, ?_⟩, ⟨?_, ?_⟩, ⟨?_, ?_⟩⟩
  · unfold dotE
    cases dotAnalyze a b <;> rfl
  · unfold dotE
    cases dotAnalyze a b <;> rfl
  · unfold eighE
    split
    · rfl
    split <;> rfl
  · unfold eighE
    split
    · rfl
    split <;> rfl
  · unfold eigvalshE
    split
    · rfl
    split <;> rfl
  · unfold eigvalshE
    split
    · rfl
    split <;> rfl

/-- Whether an `Except` is an error. -/
def isErr {ε α : Type} : Except ε α → Bool
  | .error _ => true
  | .ok _ => false

/-- `Dot` takes the mismatch branch exactly when both ranks are ≥ 1 and the
two contracted dimension sizes disagree. -/
theorem dotAnalyze_mismatch_iff (a b : Tensor) :
    dotAnalyze a b = .mismatch ↔
      (1 ≤ a.ndim ∧ 1 ≤ b.ndim ∧ a.shape.getD (a.ndim - 1) 0 ≠ bContractDim b) := by
  by_cases h : a.ndim = 0 ∨ b.ndim = 0
  · have hs : dotAnalyze a b = .scalar := by
      unfold dotAnalyze
      rw [if_pos h]
    rw [hs]
    constructor
    · intro hc
      exact absurd hc (by simp)
    · intro ⟨h1, h2, _⟩
      omega
  · have ha0 : ¬a.ndim = 0 := by omega
    have hb0 : ¬b.ndim = 0 := by omega
    simp only [dotAnalyze, dotModifiedB_head (show 1 ≤ b.ndim by omega), ha0, hb0, or_self,
      false_or, or_false, if_false, ite_false]
    by_cases hm : bContractDim b ≠ a.shape.getD (a.ndim - 1) 0
    · rw [if_pos hm]
      simp only [true_iff]
      exact ⟨by omega, by omega, fun hc => hm hc.symm⟩
    · rw [if_neg hm]
      push_neg at hm
      constructor
      · intro hc
        by_cases hz : a.shape.getD (a.ndim - 1) 0 = 0
        · rw [if_pos hz] at hc
          exact absurd hc (by simp)
        · rw [if_neg hz] at hc
          exact absurd hc (by simp)
      · intro ⟨_, _, hc⟩
        exact absurd hm.symm hc

/-- C5: `Dot` raises DimensionError exactly when the two contracted-dimension
sizes disagree (with both ranks ≥ 1), and `Eigh` / `Eigvalsh` raise it exactly
when the input is not rank 2 or not square; in every such case no kernel event
(and no event at all) has occurred — validation happens before any kernel
dispatch. -/
theorem C5_dimension_errors (a b c d : Tensor) (od : Option DtypeT) (u1 u2 : String)
    (st0 : List Bool) (f g : Tensor → String → Tensor × Tensor) :
    (isErr (dotE a b od st0).res = true ↔
        (1 ≤ a.ndim ∧ 1 ≤ b.ndim ∧ a.shape.getD (a.ndim - 1) 0 ≠ bContractDim b)) ∧
      (isErr (dotE a b od st0).res = true → (dotE a b od st0).trace = []) ∧
      (isErr (eighE f c u1 st0).res = true ↔
        (c.ndim ≠ 2 ∨ c.shape.getD 0 0 ≠ c.shape.getD 1 0)) ∧
      (isErr (eighE f c u1 st0).res = true → (eighE f c u1 st0).trace = []) ∧
      (isErr (eigvalshE g d u2 st0).res = true ↔
        (d.ndim ≠ 2 ∨ d.shape.getD 0 0 ≠ d.shape.getD 1 0)) ∧
      (isErr (eigvalshE g d u2 st0).res = true → (eigvalshE g d u2 st0).trace = []) := by
  refine ⟨?_, ?_, ?_, ?_, ?_, ?_⟩
  · rw [← dotAnalyze_mismatch_iff a b]
    unfold dotE
    cases dotAnalyze a b <;> simp [isErr]
  · unfold dotE
    cases dotAnalyze a b <;> simp [isErr]
  · unfold eighE
    by_cases h2 : c.ndim ≠ 2
    · simp [h2, isErr]
    · by_cases hsq : c.shape.getD 0 0 ≠ c.shape.getD 1 0 <;>
        simp [h2, hsq, isErr, ← List.getD_eq_getElem?_getD]
  · unfold eighE
    by_cases h2 : c.ndim ≠ 2
    · simp [h2, isErr]
    · by_cases hsq : c.shape.getD 0 0 ≠ c.shape.getD 1 0 <;>
        simp [h2, hsq, isErr, ← List.getD_eq_getElem?_getD]
  · unfold eigvalshE
    by_cases h2 : d.ndim ≠ 2
    · simp [h2, isErr]
    · by_cases hsq : d.shape.getD 0 0 ≠ d.shape.getD 1 0 <;>
        simp [h2, hsq, isErr, ← List.getD_eq_getElem?_getD]
  · unfold eigvalshE
    by_cases h2 : d.ndim ≠ 2
    · simp [h2, isErr]
    · by_cases hsq : d.shape.getD 0 0 ≠ d.shape.getD 1 0 <;>
        simp [h2, hsq, isErr, ← List.getD_eq_getElem?_getD]

/-- Witness for C5 at concrete mismatching and non-square inputs. -/
theorem C5_witness :
    (isErr (dotE ⟨[2, 3], 0, []⟩ ⟨[4], 0, []⟩ none []).res = true ↔
        (1 ≤ (⟨[2, 3], 0, []⟩ : Tensor).ndim ∧ 1 ≤ (⟨[4], 0, []⟩ : Tensor).ndim ∧
          (⟨[2, 3], 0, []⟩ : Tensor).shape.getD ((⟨[2, 3], 0, []⟩ : Tensor).ndim - 1) 0 ≠
            bContractDim ⟨[4], 0, []⟩)) ∧
      (isErr (dotE ⟨[2, 3], 0, []⟩ ⟨[4], 0, []⟩ none []).res = true →
        (dotE ⟨[2, 3], 0, []⟩ ⟨[4], 0, []⟩ none []).trace = []) ∧
      (isErr (eighE (fun _ _ => (⟨[], 0, []⟩, ⟨[], 0, []⟩)) ⟨[2, 3], 0, []⟩ "U" []).res = true ↔
        ((⟨[2, 3], 0, []⟩ : Tensor).ndim ≠ 2 ∨
          (⟨[2, 3], 0, []⟩ : Tensor).shape.getD 0 0 ≠ (⟨[2, 3], 0, []⟩ : Tensor).shape.getD 1 0)) ∧
      (isErr (eighE (fun _ _ => (⟨[], 0, []⟩, ⟨[], 0, []⟩)) ⟨[2, 3], 0, []⟩ "U" []).res = true →
        (eighE (fun _ _ => (⟨[], 0, []⟩, ⟨[], 0, []⟩)) ⟨[2, 3], 0, []⟩ "U" []).trace = []) ∧
      (isErr (eigvalshE (fun _ _ => (⟨[], 0, []⟩, ⟨[], 0, []⟩)) ⟨[5], 0, []⟩ "U" []).res = true ↔
        ((⟨[5], 0, []⟩ : Tensor).ndim ≠ 2 ∨
          (⟨[5], 0, []⟩ : Tensor).shape.getD 0 0 ≠ (⟨[5], 0, []⟩ : Tensor).shape.getD 1 0)) ∧
      (isErr (eigvalshE (fun _ _ => (⟨[], 0, []⟩, ⟨[], 0, []⟩)) ⟨[5], 0, []⟩ "U" []).res = true →
        (eigvalshE (fun _ _ => (⟨[], 0, []⟩, ⟨[], 0, []⟩)) ⟨[5], 0, []⟩ "U" []).trace = []) :=
  C5_dimension_errors ⟨[2, 3], 0, []⟩ ⟨[4], 0, []⟩ ⟨[2, 3], 0, []⟩ ⟨[5], 0, []⟩ none "U" "U" []
    (fun _ _ => (⟨[], 0, []⟩, ⟨[], 0, []⟩)) (fun _ _ => (⟨[], 0, []⟩, ⟨[], 0, []⟩))

end ChainerxLinalg
